import Mathlib

/-!
Verification development for the `ipmask` subnet calculator (`src/main.go`).

The source file holds two near-identical program variants:
 - V1: IPv4-only, `uint32` range arithmetic (lines 1-264);
 - V2: dual-stack IPv4/IPv6, `math/big` arbitrary-precision arithmetic
   (lines 265-613).

Both variants share `interpretMask`, `getNum`, `parseMask`, `parseHex`, the
`dottedQuad` regular expression, and the dotted-quad formatters.  This file
shallowly embeds those functions over `Nat`/`Int` (machine `uint32` values are
`Nat` with explicit `% 2 ^ 32`; `math/big` integers are `Int`; fallible Go
functions return `Option`, and a Go `err != nil` / runtime panic distinction is
an explicit result type).  Strings are embedded as `List Char`.
-/

/-! ### Model of the Go standard library pieces the program uses

`net.IPMask` is a byte slice; `net.CIDRMask` and `IPMask.Size` are embedded
from their Go sources.  A `nil` mask is embedded as `[]` (Go `len(nil) = 0`,
so `Size` on `nil` behaves like on `[]`).
-/

/-- Byte list built by the loop in Go `net.CIDRMask`: `l` bytes, `n` leading
one bits; each byte is `0xff` while `n >= 8`, else `^byte(0xff >> n)` and the
remaining ones-count drops to `0`. -/
def maskBytes : Nat → Nat → List Nat
  | 0, _ => []
  | l + 1, n =>
    if 8 ≤ n then 255 :: maskBytes l (n - 8)
    else ((255 >>> n) ^^^ 255) :: maskBytes l 0

/-- Go `net.CIDRMask(ones, bits)`: only widths 32 and 128 are ever requested
by this program; invalid arguments yield Go `nil`, embedded as `[]`. -/
def cidrMask (ones bits : Nat) : List Nat :=
  if (bits = 32 ∨ bits = 128) ∧ ones ≤ bits then maskBytes (bits / 8) ones
  else []

/-- Inner loop of Go `net.simpleMaskLength` on one non-`0xff` byte `v`:
`for v&0x80 != 0 { n++; v <<= 1 }` with `v` a `byte`.  Returns the count of
leading one bits together with the final shifted value of `v` (which must be
`0` for the mask to be contiguous).  Fuel `8` covers every byte value. -/
def byteLeadingOnes : Nat → Nat → Nat × Nat
  | 0, v => (0, v)
  | f + 1, v =>
    if v &&& 128 ≠ 0 then
      let p := byteLeadingOnes f ((v <<< 1) &&& 255)
      (p.1 + 1, p.2)
    else (0, v)

/-- Go `net.simpleMaskLength`: counts leading one bits of a mask byte slice,
`none` (Go `-1`) if the one bits are not contiguous from the top. -/
def simpleMaskLength : List Nat → Option Nat
  | [] => some 0
  | v :: rest =>
    if v = 255 then
      match simpleMaskLength rest with
      | some n => some (n + 8)
      | none => none
    else
      let p := byteLeadingOnes 8 v
      if p.2 ≠ 0 then none
      else if rest.all (fun b => b = 0) then some p.1
      else none

/-- Go `net.IPMask.Size`: `(ones, len*8)`, or `(0, 0)` for a non-contiguous
mask. -/
def maskSize (m : List Nat) : Nat × Nat :=
  match simpleMaskLength m with
  | some ones => (ones, m.length * 8)
  | none => (0, 0)

/-- Fueled bit-population count; `popCountAux 32 n` equals Go
`bits.OnesCount32(n)` for every `uint32` value `n < 2 ^ 32` (32 halvings
exhaust 32 bits). -/
def popCountAux : Nat → Nat → Nat
  | 0, _ => 0
  | fuel + 1, n => if n = 0 then 0 else n % 2 + popCountAux fuel (n / 2)

/-- Go `bits.OnesCount32` on a `uint32` value. -/
def onesCount32 (n : Nat) : Nat := popCountAux 32 n

/-- Go `uint32((1 << ones) - 1)`: the untyped constant `1` takes type
`uint32`, so for `ones = 32` the shift wraps to `0` and the subtraction wraps
to `0xFFFFFFFF`.  Embedded as arithmetic mod `2 ^ 32`. -/
def mask32 (ones : Nat) : Nat := ((1 <<< ones) % 2 ^ 32 + 2 ^ 32 - 1) % 2 ^ 32

/-- Go `interpretMask` (src/main.go lines 36-48 and 309-321): with
`ones = bits.OnesCount32(n)`, a netmask if `n >> (32-ones) == (1<<ones)-1`,
else an inverse mask if `n == (1<<ones)-1`, else an error (`none`). -/
def interpretMask (n : Nat) : Option (List Nat) :=
  if n >>> (32 - onesCount32 n) = mask32 (onesCount32 n) then
    some (cidrMask (onesCount32 n) 32)
  else if n = mask32 (onesCount32 n) then
    some (cidrMask (32 - onesCount32 n) 32)
  else none

/-- Restatement of claim C2 / spec section 4.2 in its own words, to be compared
with `interpretMask`: with `k = popcount n`, return prefix `k` when `n` is the
mask with `k` leading one bits, else prefix `32 - k` when `n = (1 <<< k) - 1`,
else fail. -/
def interpretMaskSpec (n : Nat) : Option (List Nat) :=
  if n = (2 ^ onesCount32 n - 1) * 2 ^ (32 - onesCount32 n) then
    some (cidrMask (onesCount32 n) 32)
  else if n = 2 ^ onesCount32 n - 1 then
    some (cidrMask (32 - onesCount32 n) 32)
  else none

/-! ### Model of `strconv.ParseUint` and of the `dottedQuad` regular expression

`dottedQuad` is `regexp.MustCompile` of four `(\d{1,3})` groups separated by
UNESCAPED dots: each separator matches any single character except a newline,
and `FindStringSubmatch` looks for the leftmost match anywhere in the input
(the pattern is not anchored).  Go's default regexp semantics are
leftmost-first with greedy repetition, embedded below as backtracking that
prefers 3 digits, then 2, then 1, and scans start positions left to right. -/

/-- The regexp class `\d`, i.e. the characters `0`-`9` (code points 48-57). -/
def isDig (c : Char) : Bool := decide (48 ≤ c.toNat) && decide (c.toNat ≤ 57)

/-- Decimal value of a digit string, as accumulated by `strconv.ParseUint`
with base 10. -/
def numVal (s : List Char) : Nat :=
  s.foldl (fun acc c => acc * 10 + (c.toNat - 48)) 0

/-- Go `strconv.ParseUint(s, 10, 32)`: fails on an empty string, on any
non-digit character, or on a value above `1<<32 - 1`; otherwise returns the
decimal value.  (Go reports syntax and range errors distinctly and abandons
the scan at the first bad character; the caller `getNum` only distinguishes
success from failure, which this embedding preserves.) -/
def parseUint32Dec (s : List Char) : Option Nat :=
  if s.isEmpty then none
  else if s.all isDig then
    if numVal s ≤ 2 ^ 32 - 1 then some (numVal s) else none
  else none

/-- Value of one hex digit per `strconv.ParseUint` base 16 (`0-9`, `a-f`,
`A-F`); any other character is a syntax error. -/
def hexDigVal (c : Char) : Option Nat :=
  if 48 ≤ c.toNat ∧ c.toNat ≤ 57 then some (c.toNat - 48)
  else if 97 ≤ c.toNat ∧ c.toNat ≤ 102 then some (c.toNat - 97 + 10)
  else if 65 ≤ c.toNat ∧ c.toNat ≤ 70 then some (c.toNat - 65 + 10)
  else none

/-- Accumulated base-16 value, `none` on the first non-hex-digit. -/
def hexVal (s : List Char) : Option Nat :=
  s.foldl
    (fun acc c =>
      match acc, hexDigVal c with
      | some a, some d => some (a * 16 + d)
      | _, _ => none)
    (some 0)

/-- Go `strconv.ParseUint(s, 16, 32)`: nonempty, all hex digits, value at
most `1<<32 - 1`. -/
def parseUint32Hex (s : List Char) : Option Nat :=
  if s.isEmpty then none
  else
    match hexVal s with
    | some v => if v ≤ 2 ^ 32 - 1 then some v else none
    | none => none

/-- Consume exactly `k` leading decimal digits, returning the digits and the
remaining input. -/
def takeDigitsN : Nat → List Char → Option (List Char × List Char)
  | 0, l => some ([], l)
  | _ + 1, [] => none
  | k + 1, c :: l =>
    if isDig c then
      match takeDigitsN k l with
      | some (g, r) => some (c :: g, r)
      | none => none
    else none

/-- One alternative of a `\d{1,3}` group: exactly `len` digits, then the
continuation `k` on the rest; the group is prepended to the continuation's
result. -/
def matchG {α : Type} (len : Nat) (l : List Char) (k : List Char → Option α) :
    Option (List Char × α) :=
  match takeDigitsN len l with
  | none => none
  | some (g, rest) =>
    match k rest with
    | none => none
    | some a => some (g, a)

/-- Greedy `(\d{1,3})` with backtracking into the continuation: prefer 3
digits, then 2, then 1. -/
def matchGroup {α : Type} (l : List Char) (k : List Char → Option α) :
    Option (List Char × α) :=
  match matchG 3 l k with
  | some res => some res
  | none =>
    match matchG 2 l k with
    | some res => some res
    | none => matchG 1 l k

/-- The unescaped `.` separator: any single character except `'\n'`. -/
def matchSep {α : Type} (l : List Char) (k : List Char → Option α) : Option α :=
  match l with
  | [] => none
  | c :: rest => if c = '\n' then none else k rest

/-- One attempt of the whole `dottedQuad` pattern at a fixed start position,
returning the four captured groups. -/
def matchQuadAt (l : List Char) :
    Option (List Char × (List Char × (List Char × List Char))) :=
  matchGroup l fun r1 =>
  matchSep r1 fun r2 =>
  matchGroup r2 fun r3 =>
  matchSep r3 fun r4 =>
  matchGroup r4 fun r5 =>
  matchSep r5 fun r6 =>
  Option.map Prod.fst (matchGroup r6 fun _ => some Unit.unit)

/-- Go `dottedQuad.FindStringSubmatch`: leftmost match, scanning start
positions left to right; `none` when the pattern matches nowhere. -/
def findQuad : List Char → Option (List Char × (List Char × (List Char × List Char)))
  | [] => none
  | c :: rest =>
    match matchQuadAt (c :: rest) with
    | some r => some r
    | none => findQuad rest

/-- Shape of a group captured by `dottedQuad`: nonempty, at most three
characters, all decimal digits. -/
def goodGroup (g : List Char) : Prop :=
  1 ≤ g.length ∧ g.length ≤ 3 ∧ g.all isDig = true

/-- Outcome of a Go function that can also panic at runtime: `ok`, an error
return (`err`), or a runtime panic (`crash`). -/
inductive GoResult (α : Type) where
  | ok (a : α)
  | err
  | crash
  deriving DecidableEq

/-- Go `getNum` (src/main.go lines 50-57 and 323-330): `strconv.ParseUint`
with base 10 and bit size 32, panicking on any parse error. -/
def getNum (s : List Char) : GoResult Nat :=
  match parseUint32Dec s with
  | some n => .ok n
  | none => .crash

/-- Go `parseMask` (src/main.go lines 59-83 and 332-356): run the
`dottedQuad` regexp, read the four captured groups with `getNum`, reject any
octet above 255, combine big-endian into a `uint32`, and validate with
`interpretMask`. -/
def parseMask (input : List Char) : GoResult (List Nat) :=
  match findQuad input with
  | none => .err
  | some (g1, g2, g3, g4) =>
    match getNum g1, getNum g2, getNum g3, getNum g4 with
    | .ok n1, .ok n2, .ok n3, .ok n4 =>
      if n1 > 255 ∨ n2 > 255 ∨ n3 > 255 ∨ n4 > 255 then .err
      else
        match interpretMask ((n1 <<< 24 ||| n2 <<< 16 ||| n3 <<< 8 ||| n4) % 2 ^ 32) with
        | some mask => .ok mask
        | none => .err
    | _, _, _, _ => .crash

/-- Outcome of Go `parseHex` with its three distinct failure sites: the
length check (the `InvalidHexLength` error, message "hex values need 8
chars"), the `strconv.ParseUint` failure, and the `interpretMask` failure. -/
inductive HexResult where
  | ok (mask : List Nat)
  | errLength
  | errParse
  | errPattern
  deriving DecidableEq

/-- Go `parseHex` (src/main.go lines 85-101 and 358-374): require total
length 10, then parse `input[2:]` as 8 hex digits (the first two characters
are sliced off without being inspected) and validate with `interpretMask`. -/
def parseHex (input : List Char) : HexResult :=
  if input.length ≠ 10 then .errLength
  else
    match parseUint32Hex (input.drop 2) with
    | none => .errParse
    | some n =>
      match interpretMask n with
      | some mask => .ok mask
      | none => .errPattern

/-! ### Range arithmetic, formatting, and report structure -/

/-- Go `netmask` formatter (identical in both variants, src/main.go lines
109-115 and 382-388): `n := ((1 << ones) - 1) << (32 - ones)` computed in the
platform `int` type (64-bit, so no wrap for the 4-byte masks this is called
on), rendered as `%d.%d.%d.%d` of the four bytes. -/
def netmask (mask : List Nat) : String :=
  let ones := (maskSize mask).1
  let n := ((1 <<< ones) - 1) <<< (32 - ones)
  toString ((n >>> 24) % 256) ++ "." ++ toString ((n >>> 16) % 256) ++ "." ++
    toString ((n >>> 8) % 256) ++ "." ++ toString (n % 256)

/-- V2 `total` (src/main.go lines 410-414): `ones, bits := mask.Size()`;
`big.Int` exponentiation `2^(bits-ones)`, exact and unbounded. -/
def total (mask : List Nat) : Nat :=
  let s := maskSize mask
  2 ^ (s.2 - s.1)

/-- V2 `usable` (src/main.go lines 416-425): the total for IPv6; otherwise
`max(total - 2, 0)` in `big.Int` arithmetic.  The Go global `ipv6` flag is an
explicit parameter. -/
def usable (ipv6 : Bool) (mask : List Nat) : Int :=
  let n : Int := total mask
  if ipv6 then n else max (n - 2) 0

/-- V1 `total` (src/main.go lines 133-137): `uint32` result, so
`1 << (32 - ones)` wraps to `0` at `ones = 0`. -/
def totalV1 (mask : List Nat) : Nat :=
  (1 <<< (32 - (maskSize mask).1)) % 2 ^ 32

/-- V1 `usable` (src/main.go lines 139-143):
`uint32(maxint((1 << (32-ones)) - 2, 0))` computed in the 64-bit `int` type,
then converted to `uint32`. -/
def usableV1 (mask : List Nat) : Nat :=
  (max ((1 <<< (32 - (maskSize mask).1) : Int) - 2) 0).toNat % 2 ^ 32

/-- V2 `ipToUint` (src/main.go lines 462-474): `big.Int.SetBytes`, the
big-endian value of the address bytes. -/
def ipToUint (bytes : List Nat) : Nat :=
  bytes.foldl (fun acc b => acc * 256 + b) 0

/-- The three range values V2's `main` computes for a CIDR input
(src/main.go lines 583-599): the broadcast integer, and the first/last usable
addresses with `none` embedding the `"<none>"` sentinel strings. -/
structure RangeInfo where
  broadcast : Int
  firstAddr : Option Int
  lastAddr : Option Int
  deriving DecidableEq

/-- V2 range computation (src/main.go lines 583-599): `broadcast = n + total
- 1`, `first = n + 1`, `last = broadcast - 1`, `size = broadcast - n`, and
the usable addresses are shown when `size.Sign() == 1`, i.e. `size > 0`. -/
def rangeInfoV2 (n : Int) (mask : List Nat) : RangeInfo :=
  let broadcast := n + (total mask : Int) - 1
  let first := n + 1
  let last := broadcast - 1
  let size := broadcast - n
  { broadcast := broadcast
    firstAddr := if 0 < size then some first else none
    lastAddr := if 0 < size then some last else none }

/-- V1 range computation (src/main.go lines 240-253), in `uint32`
arithmetic: the usable addresses are shown when `broadcast - n > 1`. -/
def rangeReportV1 (n : Nat) (mask : List Nat) : Option Nat × Option Nat :=
  let t := totalV1 mask
  let broadcast := (n + t + (2 ^ 32 - 1)) % 2 ^ 32
  let first := (n + 1) % 2 ^ 32
  let last := (broadcast + (2 ^ 32 - 1)) % 2 ^ 32
  if 1 < (broadcast + 2 ^ 32 - n) % 2 ^ 32 then (some first, some last)
  else (none, none)

/-- Labels of the report lines V2's `main` prints (src/main.go lines
556-611), by family flag and by whether the input was CIDR (for CIDR input
both `ip` and `ipnet` are non-nil, otherwise both are nil). -/
def reportFields (ipv6 isCIDR : Bool) : List String :=
  (if isCIDR then ["IP Entered"] else []) ++
  (if ipv6 then ["Prefix"]
   else ["CIDR", "Netmask", "Netmask (hex)", "Wildcard Bits"]) ++
  (if isCIDR then [] else ["Usable IP Addresses"]) ++
  (if isCIDR then
    (if ipv6 then [] else ["Network Address", "Broadcast Address"]) ++
    ["Usable IP Addresses", "First Usable IP Address", "Last Usable IP Address"]
  else [])

/-- The five input shapes of the `switch` in `main`. -/
inductive InputForm where
  | slashLen
  | cidr
  | dotted
  | hexForm
  | bare
  deriving DecidableEq

/-- The `switch` in `main` (src/main.go lines 179-217 and 512-554): the first
case evaluates `string(input[0]) == "/"`, which indexes the input before any
emptiness check — a Go runtime panic (index out of range) on the empty
string. -/
def classifyInput (input : List Char) : GoResult InputForm :=
  match input with
  | [] => .crash
  | c :: rest =>
    if c = '/' then .ok .slashLen
    else if (c :: rest).contains '/' then .ok .cidr
    else if (c :: rest).contains '.' then .ok .dotted
    else if (c :: rest).take 2 = ['0', 'x'] then .ok .hexForm
    else .ok .bare

/-- Argument handling of `main`: anything but exactly one positional argument
is the usage error (`err`); otherwise the single argument is dispatched. -/
def runMain (args : List String) : GoResult InputForm :=
  match args with
  | [input] => classifyInput input.data
  | _ => .err

set_option maxRecDepth 8192


/-! ### Lemmas about the fueled population count -/

theorem two_pow_pos (m : Nat) : 0 < 2 ^ m := pow_pos (by omega) m

theorem popCountAux_zero (fuel : Nat) : popCountAux fuel 0 = 0 := by
  cases fuel <;> simp [popCountAux]

theorem popCountAux_le (fuel : Nat) : ∀ n, popCountAux fuel n ≤ fuel := by
  induction fuel with
  | zero => intro n; simp [popCountAux]
  | succ f ih =>
    intro n
    simp only [popCountAux]
    by_cases h : n = 0
    · simp [h]
    · simp only [h, if_false]
      have := ih (n / 2)
      omega

theorem popCountAux_two_pow_sub_one :
    ∀ k fuel, k ≤ fuel → popCountAux fuel (2 ^ k - 1) = k := by
  intro k
  induction k with
  | zero => intro fuel _; simpa using popCountAux_zero fuel
  | succ k ih =>
    intro fuel hk
    obtain ⟨f, rfl⟩ : ∃ f, fuel = f + 1 := ⟨fuel - 1, by omega⟩
    have hpos : 0 < 2 ^ k := two_pow_pos k
    have hne : 2 ^ (k + 1) - 1 ≠ 0 := by
      have : (2:Nat) ^ (k + 1) = 2 ^ k * 2 := pow_succ 2 k
      omega
    have hmod : (2 ^ (k + 1) - 1) % 2 = 1 := by
      have : (2:Nat) ^ (k + 1) = 2 ^ k * 2 := pow_succ 2 k
      omega
    have hdiv : (2 ^ (k + 1) - 1) / 2 = 2 ^ k - 1 := by
      have : (2:Nat) ^ (k + 1) = 2 ^ k * 2 := pow_succ 2 k
      omega
    simp only [popCountAux, hne, if_false, hmod, hdiv]
    rw [ih f (by omega)]
    omega

theorem popCountAux_eq_zero :
    ∀ fuel r, r < 2 ^ fuel → popCountAux fuel r = 0 → r = 0 := by
  intro fuel
  induction fuel with
  | zero => intro r hr _; simpa using hr
  | succ f ih =>
    intro r hr h
    by_cases h0 : r = 0
    · exact h0
    · simp only [popCountAux, h0, if_false] at h
      have h1 : r % 2 = 0 := by omega
      have h2 : popCountAux f (r / 2) = 0 := by omega
      have h3 : r / 2 < 2 ^ f := by
        have : (2:Nat) ^ (f + 1) = 2 ^ f * 2 := pow_succ 2 f
        omega
      have := ih (r / 2) h3 h2
      omega

theorem popCountAux_eq_fuel :
    ∀ fuel n, n < 2 ^ fuel → popCountAux fuel n = fuel → n = 2 ^ fuel - 1 := by
  intro fuel
  induction fuel with
  | zero => intro n hn _; simpa using hn
  | succ f ih =>
    intro n hn h
    have hne : n ≠ 0 := by
      intro h0
      rw [h0, popCountAux_zero] at h
      omega
    simp only [popCountAux, hne, if_false] at h
    have hle := popCountAux_le f (n / 2)
    have hm : n % 2 = 1 := by omega
    have hp : popCountAux f (n / 2) = f := by omega
    have hq : n / 2 < 2 ^ f := by
      have : (2:Nat) ^ (f + 1) = 2 ^ f * 2 := pow_succ 2 f
      omega
    have := ih (n / 2) hq hp
    have : (2:Nat) ^ (f + 1) = 2 ^ f * 2 := pow_succ 2 f
    omega

theorem popCountAux_add_mul :
    ∀ m fuel a r, m ≤ fuel → r < 2 ^ m →
      popCountAux fuel (a * 2 ^ m + r) =
        popCountAux (fuel - m) a + popCountAux m r := by
  intro m
  induction m with
  | zero =>
    intro fuel a r _ hr
    have : r = 0 := by omega
    subst this
    simp [popCountAux_zero]
  | succ m ih =>
    intro fuel a r hm hr
    obtain ⟨f, rfl⟩ : ∃ f, fuel = f + 1 := ⟨fuel - 1, by omega⟩
    have hp : (2:Nat) ^ (m + 1) = 2 ^ m * 2 := pow_succ 2 m
    by_cases hz : a * 2 ^ (m + 1) + r = 0
    · have hppos : 0 < 2 ^ (m + 1) := two_pow_pos (m + 1)
      have har : a * 2 ^ (m + 1) = 0 ∧ r = 0 := by omega
      have ha : a = 0 := by
        rcases Nat.mul_eq_zero.mp har.1 with h | h
        · exact h
        · omega
      rw [ha, har.2]
      simp [popCountAux_zero]
    · simp only [popCountAux, hz, if_false]
      have hmod : (a * 2 ^ (m + 1) + r) % 2 = r % 2 := by
        rw [hp, ← Nat.mul_assoc]
        omega
      have hdiv : (a * 2 ^ (m + 1) + r) / 2 = a * 2 ^ m + r / 2 := by
        rw [hp, ← Nat.mul_assoc]
        omega
      rw [hmod, hdiv, ih f a (r / 2) (by omega) (by omega)]
      have hfm : f + 1 - (m + 1) = f - m := by omega
      rw [hfm]
      by_cases hr0 : r = 0
      · subst hr0
        simp [popCountAux_zero]
      · simp only [popCountAux, hr0, if_false]
        omega

/-! ### Equivalence of `interpretMask` with its specification -/

theorem mask32_eq_of_lt {k : Nat} (hk : k < 32) : mask32 k = 2 ^ k - 1 := by
  unfold mask32
  rw [Nat.shiftLeft_eq, one_mul]
  have h32 : (2:Nat) ^ 32 = 4294967296 := by norm_num
  have h31 : (2:Nat) ^ 31 = 2147483648 := by norm_num
  have hle : (2:Nat) ^ k ≤ 2 ^ 31 := Nat.pow_le_pow_right (by omega) (by omega)
  have hpos : 0 < 2 ^ k := two_pow_pos k
  omega

/-- If the top `k` bits of `n` are all ones and `n` has exactly `k` one bits,
then `n` is the contiguous netmask with `k` leading ones. -/
theorem shiftRight_top_eq (n k : Nat) (hk : k ≤ 32) (hpc : onesCount32 n = k)
    (h : n >>> (32 - k) = 2 ^ k - 1) : n = (2 ^ k - 1) * 2 ^ (32 - k) := by
  rw [Nat.shiftRight_eq_div_pow] at h
  have hdm := Nat.div_add_mod n (2 ^ (32 - k))
  rw [h, Nat.mul_comm] at hdm
  have hrlt : n % 2 ^ (32 - k) < 2 ^ (32 - k) := Nat.mod_lt _ (two_pow_pos _)
  have hB := popCountAux_add_mul (32 - k) 32 (2 ^ k - 1) (n % 2 ^ (32 - k))
    (by omega) hrlt
  rw [hdm] at hB
  have h32k : 32 - (32 - k) = k := by omega
  rw [h32k, popCountAux_two_pow_sub_one k k (le_refl k)] at hB
  have hpc' : popCountAux 32 n = k := hpc
  have hr0 : popCountAux (32 - k) (n % 2 ^ (32 - k)) = 0 := by omega
  have := popCountAux_eq_zero (32 - k) _ hrlt hr0
  omega

theorem interpretMask_eq_spec (n : Nat) (hn : n < 2 ^ 32) :
    interpretMask n = interpretMaskSpec n := by
  have hk32 : onesCount32 n ≤ 32 := popCountAux_le 32 n
  by_cases hk : onesCount32 n = 32
  · have hn' : n = 2 ^ 32 - 1 := popCountAux_eq_fuel 32 n hn hk
    subst hn'
    decide
  · unfold interpretMask interpretMaskSpec
    set k := onesCount32 n with hkdef
    have hm : mask32 k = 2 ^ k - 1 := mask32_eq_of_lt (by omega)
    rw [hm]
    have hiff : (n >>> (32 - k) = 2 ^ k - 1) ↔
        (n = (2 ^ k - 1) * 2 ^ (32 - k)) := by
      constructor
      · intro h
        exact shiftRight_top_eq n k (by omega) hkdef.symm h
      · intro h
        rw [Nat.shiftRight_eq_div_pow, h]
        exact Nat.mul_div_cancel _ (two_pow_pos _)
    exact if_congr hiff rfl rfl

/-! ### Shape of the groups captured by the `dottedQuad` regular expression -/

theorem takeDigitsN_spec :
    ∀ (k : Nat) (l g r : List Char), takeDigitsN k l = some (g, r) →
      g.length = k ∧ g.all isDig = true := by
  intro k
  induction k with
  | zero =>
    intro l g r h
    simp only [takeDigitsN, Option.some.injEq, Prod.mk.injEq] at h
    rw [← h.1]
    simp
  | succ k ih =>
    intro l g r h
    match l with
    | [] => simp [takeDigitsN] at h
    | c :: l =>
      simp only [takeDigitsN] at h
      by_cases hc : isDig c = true
      · simp only [hc, if_true] at h
        match htd : takeDigitsN k l with
        | none => rw [htd] at h; simp at h
        | some (g', r') =>
          rw [htd] at h
          simp only [Option.some.injEq, Prod.mk.injEq] at h
          obtain ⟨hg, _⟩ := h
          have := ih l g' r' htd
          rw [← hg]
          simp only [List.length_cons, List.all_cons, hc, Bool.true_and]
          exact ⟨by omega, this.2⟩
      · simp only [hc] at h
        simp at h

theorem matchG_spec {α : Type} (len : Nat) (l : List Char)
    (k : List Char → Option α) (g : List Char) (a : α)
    (h : matchG len l k = some (g, a)) :
    (∃ r, takeDigitsN len l = some (g, r) ∧ k r = some a) := by
  unfold matchG at h
  split at h
  · simp at h
  · rename_i g' r' htd
    split at h
    · simp at h
    · rename_i a' hk
      simp only [Option.some.injEq, Prod.mk.injEq] at h
      refine ⟨r', ?_, ?_⟩
      · rw [← h.1]; exact htd
      · rw [← h.2]; exact hk

theorem matchGroup_spec {α : Type} (l : List Char)
    (k : List Char → Option α) (g : List Char) (a : α)
    (h : matchGroup l k = some (g, a)) :
    goodGroup g ∧ ∃ r, k r = some a := by
  unfold matchGroup at h
  match h3 : matchG 3 l k with
  | some res =>
    rw [h3] at h
    simp only [Option.some.injEq] at h
    subst h
    obtain ⟨r, htd, hk⟩ := matchG_spec 3 l k g a h3
    have := takeDigitsN_spec 3 l g r htd
    exact ⟨⟨by omega, by omega, this.2⟩, r, hk⟩
  | none =>
    rw [h3] at h
    match h2 : matchG 2 l k with
    | some res =>
      rw [h2] at h
      simp only [Option.some.injEq] at h
      subst h
      obtain ⟨r, htd, hk⟩ := matchG_spec 2 l k g a h2
      have := takeDigitsN_spec 2 l g r htd
      exact ⟨⟨by omega, by omega, this.2⟩, r, hk⟩
    | none =>
      rw [h2] at h
      obtain ⟨r, htd, hk⟩ := matchG_spec 1 l k g a h
      have := takeDigitsN_spec 1 l g r htd
      exact ⟨⟨by omega, by omega, this.2⟩, r, hk⟩

theorem matchSep_spec {α : Type} (l : List Char) (k : List Char → Option α)
    (a : α) (h : matchSep l k = some a) : ∃ r, k r = some a := by
  unfold matchSep at h
  split at h
  · simp at h
  · rename_i c rest
    split at h
    · simp at h
    · exact ⟨rest, h⟩

theorem matchQuadAt_spec (l : List Char) (g1 g2 g3 g4 : List Char)
    (h : matchQuadAt l = some (g1, (g2, (g3, g4)))) :
    goodGroup g1 ∧ goodGroup g2 ∧ goodGroup g3 ∧ goodGroup g4 := by
  unfold matchQuadAt at h
  obtain ⟨hs1, r1, h⟩ := matchGroup_spec _ _ _ _ h
  obtain ⟨r2, h⟩ := matchSep_spec _ _ _ h
  obtain ⟨hs2, r3, h⟩ := matchGroup_spec _ _ _ _ h
  obtain ⟨r4, h⟩ := matchSep_spec _ _ _ h
  obtain ⟨hs3, r5, h⟩ := matchGroup_spec _ _ _ _ h
  obtain ⟨r6, h⟩ := matchSep_spec _ _ _ h
  match hg : matchGroup r6 (fun _ => some Unit.unit) with
  | none =>
    rw [hg] at h
    simp at h
  | some (g', u) =>
    rw [hg] at h
    simp only [Option.map_some', Option.some.injEq] at h
    obtain ⟨hs4, _, _⟩ := matchGroup_spec _ _ _ _ hg
    have hg4 : g' = g4 := h
    rw [hg4] at hs4
    exact ⟨hs1, hs2, hs3, hs4⟩

theorem findQuad_spec :
    ∀ (l : List Char) (g1 g2 g3 g4 : List Char),
      findQuad l = some (g1, (g2, (g3, g4))) →
      goodGroup g1 ∧ goodGroup g2 ∧ goodGroup g3 ∧ goodGroup g4 := by
  intro l
  induction l with
  | nil => intro g1 g2 g3 g4 h; simp [findQuad] at h
  | cons c rest ih =>
    intro g1 g2 g3 g4 h
    unfold findQuad at h
    match hm : matchQuadAt (c :: rest) with
    | some r =>
      rw [hm] at h
      simp only [Option.some.injEq] at h
      subst h
      exact matchQuadAt_spec _ _ _ _ _ hm
    | none =>
      rw [hm] at h
      exact ih g1 g2 g3 g4 h

/-! ### `getNum` always succeeds on a captured group -/

theorem numVal_foldl_lt (g : List Char) (hd : g.all isDig = true) :
    ∀ acc, g.foldl (fun acc c => acc * 10 + (c.toNat - 48)) acc <
      (acc + 1) * 10 ^ g.length := by
  induction g with
  | nil => intro acc; simp
  | cons c g ih =>
    intro acc
    simp only [List.all_cons, Bool.and_eq_true] at hd
    have hc : c.toNat - 48 ≤ 9 := by
      have := hd.1
      simp only [isDig, Bool.and_eq_true, decide_eq_true_eq] at this
      omega
    have h1 := ih hd.2 (acc * 10 + (c.toNat - 48))
    have h2 : (acc * 10 + (c.toNat - 48) + 1) * 10 ^ g.length ≤
        ((acc + 1) * 10) * 10 ^ g.length :=
      Nat.mul_le_mul_right _ (by omega)
    simp only [List.foldl_cons, List.length_cons]
    calc List.foldl (fun acc c => acc * 10 + (c.toNat - 48))
          (acc * 10 + (c.toNat - 48)) g
        < (acc * 10 + (c.toNat - 48) + 1) * 10 ^ g.length := h1
      _ ≤ ((acc + 1) * 10) * 10 ^ g.length := h2
      _ = (acc + 1) * 10 ^ (g.length + 1) := by ring

theorem getNum_ok (g : List Char) (hg : goodGroup g) :
    getNum g = .ok (numVal g) ∧ numVal g ≤ 999 := by
  obtain ⟨h1, h3, hd⟩ := hg
  have hlt : numVal g < 10 ^ g.length := by
    have := numVal_foldl_lt g hd 0
    simpa [numVal] using this
  have hb : (10:Nat) ^ g.length ≤ 10 ^ 3 :=
    Nat.pow_le_pow_right (by omega) h3
  have h999 : numVal g ≤ 999 := by
    have : (10:Nat) ^ 3 = 1000 := by norm_num
    omega
  have hne : g.isEmpty = false := by
    match g with
    | [] => simp at h1
    | c :: g => rfl
  refine ⟨?_, h999⟩
  unfold getNum parseUint32Dec
  rw [hne]
  simp only [Bool.false_eq_true, if_false, hd, if_true]
  have hle : numVal g ≤ 2 ^ 32 - 1 := by
    have : (2:Nat) ^ 32 = 4294967296 := by norm_num
    omega
  rw [if_pos hle]

/-! ### Reduction of `parseMask` once the regexp has matched -/

theorem parseMask_eq_of_findQuad (input g1 g2 g3 g4 : List Char)
    (hq : findQuad input = some (g1, (g2, (g3, g4)))) :
    parseMask input =
      if numVal g1 > 255 ∨ numVal g2 > 255 ∨ numVal g3 > 255 ∨ numVal g4 > 255
      then .err
      else
        match interpretMask ((numVal g1 <<< 24 ||| numVal g2 <<< 16 |||
            numVal g3 <<< 8 ||| numVal g4) % 2 ^ 32) with
        | some mask => .ok mask
        | none => .err := by
  obtain ⟨hg1, hg2, hg3, hg4⟩ := findQuad_spec input g1 g2 g3 g4 hq
  obtain ⟨he1, _⟩ := getNum_ok g1 hg1
  obtain ⟨he2, _⟩ := getNum_ok g2 hg2
  obtain ⟨he3, _⟩ := getNum_ok g3 hg3
  obtain ⟨he4, _⟩ := getNum_ok g4 hg4
  unfold parseMask
  simp only [hq, he1, he2, he3, he4]

theorem parseMask_not_crash (input : List Char) :
    parseMask input = .err ∨ ∃ m, parseMask input = .ok m := by
  match hq : findQuad input with
  | none =>
    left
    unfold parseMask
    simp only [hq]
  | some (g1, g2, g3, g4) =>
    rw [parseMask_eq_of_findQuad input g1 g2 g3 g4 hq]
    by_cases hb : numVal g1 > 255 ∨ numVal g2 > 255 ∨ numVal g3 > 255 ∨
        numVal g4 > 255
    · left
      rw [if_pos hb]
    · rw [if_neg hb]
      match hi : interpretMask ((numVal g1 <<< 24 ||| numVal g2 <<< 16 |||
          numVal g3 <<< 8 ||| numVal g4) % 2 ^ 32) with
      | some m =>
        right
        exact ⟨m, by simp only [hi]⟩
      | none =>
        left
        simp only [hi]

/-! ### Claim theorems -/

/-- C1: the claim states the report shows first usable `N+1` and last usable
`broadcast - 1` iff `broadcast - N > 1`, and that `10.0.0.0/31` reports both
as absent with usable count 0.  The IPv4-only variant (condition
`broadcast-n > 1`) does exactly that, but the dual-stack variant gates on
`size.Sign() == 1`, i.e. `broadcast - N > 0`: on `10.0.0.0/31`
(N = 167772160) it prints first usable `10.0.0.1` and last usable `10.0.0.0`
(the network address, below the first usable) while also printing usable
count 0 — the code contradicts the claim, its own usable count, and the
other variant. -/
theorem c1_degenerate_range :
    rangeInfoV2 (ipToUint [10, 0, 0, 0]) (cidrMask 31 32) =
      { broadcast := 167772161, firstAddr := some 167772161,
        lastAddr := some 167772160 } ∧
    usable false (cidrMask 31 32) = 0 ∧
    rangeReportV1 (ipToUint [10, 0, 0, 0]) (cidrMask 31 32) = (none, none) ∧
    usableV1 (cidrMask 31 32) = 0 := by decide

/-- C2: for every `uint32` value `n` with `k = popcount n`, `interpretMask`
returns prefix `k` when `n` is the netmask with `k` leading one bits (checked
first), else prefix `32 - k` when `n = (1 <<< k) - 1` (inverse mask), else
fails; in particular `0` is read as a prefix-0 netmask, `0xFFFFFFFF` as
prefix 32, and the non-contiguous `0xFF00FF00` (255.0.255.0) is rejected. -/
theorem c2_interpret_mask :
    (∀ n, n < 2 ^ 32 → interpretMask n = interpretMaskSpec n) ∧
    interpretMask 0 = some (cidrMask 0 32) ∧
    interpretMask 0xFFFFFFFF = some (cidrMask 32 32) ∧
    interpretMask 0xFF00FF00 = none :=
  ⟨interpretMask_eq_spec, by decide, by decide, by decide⟩

/-- Witness for C2 at the concrete input `0xFFFFFF00`. -/
theorem c2_interpret_mask_w :
    0xFFFFFF00 < 2 ^ 32 ∧
    interpretMask 0xFFFFFF00 = interpretMaskSpec 0xFFFFFF00 :=
  ⟨by decide, c2_interpret_mask.1 0xFFFFFF00 (by decide)⟩

/-- C3: `total` of the dual-stack variant is the exact integer
`2 ^ (width - p)` for every prefix `p` at both widths — `big.Int`
exponentiation embeds as exact `Nat` arithmetic with no overflow — and for
an IPv6 `/0` block `usable` is exactly `2 ^ 128`. -/
theorem c3_total_exact :
    (∀ p, p ≤ 32 → total (cidrMask p 32) = 2 ^ (32 - p)) ∧
    (∀ p, p ≤ 128 → total (cidrMask p 128) = 2 ^ (128 - p)) ∧
    usable true (cidrMask 0 128) = ((2 ^ 128 : Nat) : Int) := by
  refine ⟨by decide, by decide, by decide⟩

/-- Witness for C3 at `p = 24` (IPv4) and `p = 0` (IPv6). -/
theorem c3_total_exact_w :
    (24 ≤ 32 ∧ total (cidrMask 24 32) = 2 ^ (32 - 24)) ∧
    (0 ≤ 128 ∧ total (cidrMask 0 128) = 2 ^ (128 - 0)) :=
  ⟨⟨by decide, c3_total_exact.1 24 (by decide)⟩,
   ⟨by decide, c3_total_exact.2.1 0 (by decide)⟩⟩

/-- C4 counterexample: the dots of the `dottedQuad` pattern are unescaped,
so `parseMask` accepts `255x255x255x0` — an input without a single literal
dot — as the `/24` netmask, contradicting the claim that every input not of
the form `n1.n2.n3.n4` with literal dots fails. -/
theorem c4_literal_dot_cex :
    parseMask ("255x255x255x0".data) = .ok (cidrMask 24 32) ∧
    ("255x255x255x0".data).contains '.' = false := by decide

/-- C4 (amended): `parseMask` succeeds only when the unanchored `dottedQuad`
regexp — whose separators match any non-newline character — captures four
1-to-3-digit groups somewhere in the input with every group value at most
255 and the combined 32-bit value a valid mask pattern; octet values are
parsed exactly (never truncated), so `999.1.1.1` fails, as does any input
the regexp cannot match, such as `1.2.3`. -/
theorem c4_parse_mask_amended :
    (∀ input mask, parseMask input = .ok mask →
      ∃ g1 g2 g3 g4, findQuad input = some (g1, (g2, (g3, g4))) ∧
        numVal g1 ≤ 255 ∧ numVal g2 ≤ 255 ∧ numVal g3 ≤ 255 ∧
        numVal g4 ≤ 255 ∧
        interpretMask ((numVal g1 <<< 24 ||| numVal g2 <<< 16 |||
          numVal g3 <<< 8 ||| numVal g4) % 2 ^ 32) = some mask) ∧
    parseMask ("999.1.1.1".data) = .err ∧
    parseMask ("1.2.3".data) = .err ∧
    parseMask ("255x255x255x0".data) = .ok (cidrMask 24 32) := by
  refine ⟨?_, by decide, by decide, by decide⟩
  intro input mask h
  match hq : findQuad input with
  | none =>
    unfold parseMask at h
    simp only [hq] at h
    exact GoResult.noConfusion h
  | some (g1, g2, g3, g4) =>
    rw [parseMask_eq_of_findQuad input g1 g2 g3 g4 hq] at h
    by_cases hb : numVal g1 > 255 ∨ numVal g2 > 255 ∨ numVal g3 > 255 ∨
        numVal g4 > 255
    · rw [if_pos hb] at h
      exact GoResult.noConfusion h
    · rw [if_neg hb] at h
      push_neg at hb
      match hi : interpretMask ((numVal g1 <<< 24 ||| numVal g2 <<< 16 |||
          numVal g3 <<< 8 ||| numVal g4) % 2 ^ 32) with
      | some m =>
        simp only [hi, GoResult.ok.injEq] at h
        exact ⟨g1, g2, g3, g4, rfl, hb.1, hb.2.1, hb.2.2.1, hb.2.2.2,
          by rw [hi, h]⟩
      | none =>
        simp only [hi] at h
        exact GoResult.noConfusion h

/-- Witness for C4 (amended) at the concrete input `255.255.255.0`. -/
theorem c4_parse_mask_amended_w :
    ∃ g1 g2 g3 g4,
      findQuad ("255.255.255.0".data) = some (g1, (g2, (g3, g4))) ∧
      numVal g1 ≤ 255 ∧ numVal g2 ≤ 255 ∧ numVal g3 ≤ 255 ∧ numVal g4 ≤ 255 ∧
      interpretMask ((numVal g1 <<< 24 ||| numVal g2 <<< 16 |||
        numVal g3 <<< 8 ||| numVal g4) % 2 ^ 32) = some (cidrMask 24 32) :=
  c4_parse_mask_amended.1 ("255.255.255.0".data) (cidrMask 24 32) (by decide)

/-- C5: IPv4 usable counts are `max(total - 2, 0)` in both variants — giving
2 at `/30` and 0 at `/31` and `/32` — and IPv6 usable is the full
`2 ^ (128 - p)` with no subtraction for every prefix. -/
theorem c5_usable_counts :
    (∀ p, p ≤ 32 →
      usable false (cidrMask p 32) =
        max (((2 ^ (32 - p) : Nat) : Int) - 2) 0 ∧
      usableV1 (cidrMask p 32) =
        (max (((2 ^ (32 - p) : Nat) : Int) - 2) 0).toNat) ∧
    usable false (cidrMask 30 32) = 2 ∧
    usable false (cidrMask 31 32) = 0 ∧
    usable false (cidrMask 32 32) = 0 ∧
    (∀ p, p ≤ 128 → usable true (cidrMask p 128) = ((2 ^ (128 - p) : Nat) : Int)) := by
  refine ⟨by decide, by decide, by decide, by decide, by decide⟩

/-- Witness for C5 at `p = 30` (IPv4) and `p = 64` (IPv6). -/
theorem c5_usable_counts_w :
    (30 ≤ 32 ∧
      usable false (cidrMask 30 32) =
        max (((2 ^ (32 - 30) : Nat) : Int) - 2) 0 ∧
      usableV1 (cidrMask 30 32) =
        (max (((2 ^ (32 - 30) : Nat) : Int) - 2) 0).toNat) ∧
    (64 ≤ 128 ∧
      usable true (cidrMask 64 128) = ((2 ^ (128 - 64) : Nat) : Int)) :=
  ⟨⟨by decide, c5_usable_counts.1 30 (by decide)⟩,
   ⟨by decide, c5_usable_counts.2.2.2.2 64 (by decide)⟩⟩

/-- C6 counterexample: `0.0.0.0` is a valid netmask dotted-quad (prefix 0,
and it round-trips through `parseMask`), but `interpretMask` reads its value
`0` as the prefix-0 netmask while reading its bitwise complement
`0xFFFFFFFF` as the prefix-32 netmask (the netmask interpretation is checked
first), so the two interpretations do not yield the same prefix length
(0 versus 32) — the claim fails at `m = 0.0.0.0` (and symmetrically at
`255.255.255.255`). -/
theorem c6_roundtrip_cex :
    parseMask ("0.0.0.0".data) = .ok (cidrMask 0 32) ∧
    netmask (cidrMask 0 32) = "0.0.0.0" ∧
    interpretMask 0 = some (cidrMask 0 32) ∧
    interpretMask (0 ^^^ (2 ^ 32 - 1)) = some (cidrMask 32 32) ∧
    (maskSize (cidrMask 0 32)).1 = 0 ∧
    (maskSize (cidrMask 32 32)).1 = 32 := by decide

/-- C6 (amended): for every valid netmask dotted-quad of prefix length `k`
strictly between 0 and 32, rendering the parsed mask returns the original
string, and `interpretMask` on the mask value and on its bitwise complement
(the wildcard mask) agree on the canonical prefix (first conjunct); for the
two extreme masks `0.0.0.0` (k = 0) and `255.255.255.255` (k = 32) the
round-trip still holds (second and third conjuncts), but the complement is
read as the opposite extreme prefix — the complement of the `/0` mask as
prefix 32 and the complement of the `/32` mask as prefix 0 — because the
netmask shape is checked first (last two conjuncts). -/
theorem c6_roundtrip_amended :
    (∀ k, k ≤ 31 → 1 ≤ k →
      parseMask ((netmask (cidrMask k 32)).data) = .ok (cidrMask k 32) ∧
      interpretMask ((2 ^ k - 1) * 2 ^ (32 - k)) = some (cidrMask k 32) ∧
      interpretMask (((2 ^ k - 1) * 2 ^ (32 - k)) ^^^ (2 ^ 32 - 1)) =
        some (cidrMask k 32)) ∧
    parseMask ((netmask (cidrMask 0 32)).data) = .ok (cidrMask 0 32) ∧
    parseMask ((netmask (cidrMask 32 32)).data) = .ok (cidrMask 32 32) ∧
    interpretMask (((2 ^ 0 - 1) * 2 ^ (32 - 0)) ^^^ (2 ^ 32 - 1)) =
      some (cidrMask 32 32) ∧
    interpretMask (((2 ^ 32 - 1) * 2 ^ (32 - 32)) ^^^ (2 ^ 32 - 1)) =
      some (cidrMask 0 32) := by
  refine ⟨by decide, by decide, by decide, by decide, by decide⟩

/-- Witness for C6 (amended) at `k = 24`. -/
theorem c6_roundtrip_amended_w :
    parseMask ((netmask (cidrMask 24 32)).data) = .ok (cidrMask 24 32) ∧
    interpretMask ((2 ^ 24 - 1) * 2 ^ (32 - 24)) = some (cidrMask 24 32) ∧
    interpretMask (((2 ^ 24 - 1) * 2 ^ (32 - 24)) ^^^ (2 ^ 32 - 1)) =
      some (cidrMask 24 32) :=
  c6_roundtrip_amended.1 24 (by decide) (by decide)

/-- C7: for IPv6 the printed report omits the netmask, hex netmask,
wildcard, network-address and broadcast-address lines and includes the
prefix, usable count and first/last usable lines; the broadcast line is
printed exactly when the family is IPv4, and the broadcast value the range
computation produces is `N + total - 1`. -/
theorem c7_ipv6_report_fields :
    (∀ isCIDR : Bool,
      (reportFields true isCIDR).contains "Netmask" = false ∧
      (reportFields true isCIDR).contains "Netmask (hex)" = false ∧
      (reportFields true isCIDR).contains "Wildcard Bits" = false ∧
      (reportFields true isCIDR).contains "Network Address" = false ∧
      (reportFields true isCIDR).contains "Broadcast Address" = false ∧
      (reportFields true isCIDR).contains "Prefix" = true) ∧
    (∀ v6 : Bool, (reportFields v6 true).contains "Broadcast Address" = !v6) ∧
    (reportFields true true).contains "Usable IP Addresses" = true ∧
    (reportFields true true).contains "First Usable IP Address" = true ∧
    (reportFields true true).contains "Last Usable IP Address" = true ∧
    (∀ (n : Int) (mask : List Nat),
      (rangeInfoV2 n mask).broadcast = n + (total mask : Int) - 1) :=
  ⟨by decide, by decide, by decide, by decide, by decide,
   fun _ _ => rfl⟩

/-- C9: invoked with exactly one argument that is the empty string, `main`
evaluates `string(input[0])` before any emptiness check, which panics with
an index-out-of-range runtime error instead of printing a diagnostic. -/
theorem c9_empty_input_crash :
    runMain [""] = GoResult.crash ∧ classifyInput [] = GoResult.crash := by
  exact ⟨rfl, rfl⟩

/-- C10: `parseMask` never reaches `getNum`'s panic branch: whenever the
`dottedQuad` regexp matches, every captured group is a string of 1 to 3
decimal digits, so `getNum`'s `strconv.ParseUint` call succeeds with the
exact decimal value (at most 999, far below `2^32`), and `parseMask` always
returns an ordinary success or error. -/
theorem c10_parse_mask_no_panic :
    ∀ input : List Char,
      (∀ g1 g2 g3 g4, findQuad input = some (g1, (g2, (g3, g4))) →
        (getNum g1 = .ok (numVal g1) ∧ numVal g1 ≤ 999) ∧
        (getNum g2 = .ok (numVal g2) ∧ numVal g2 ≤ 999) ∧
        (getNum g3 = .ok (numVal g3) ∧ numVal g3 ≤ 999) ∧
        (getNum g4 = .ok (numVal g4) ∧ numVal g4 ≤ 999)) ∧
      (parseMask input = .err ∨ ∃ m, parseMask input = .ok m) := by
  intro input
  constructor
  · intro g1 g2 g3 g4 hq
    obtain ⟨h1, h2, h3, h4⟩ := findQuad_spec input g1 g2 g3 g4 hq
    exact ⟨getNum_ok g1 h1, getNum_ok g2 h2, getNum_ok g3 h3, getNum_ok g4 h4⟩
  · exact parseMask_not_crash input

/-- Witness for C10 at the concrete input `1.2.3.4`. -/
theorem c10_parse_mask_no_panic_w :
    ((getNum ['1'] = .ok (numVal ['1']) ∧ numVal ['1'] ≤ 999) ∧
     (getNum ['2'] = .ok (numVal ['2']) ∧ numVal ['2'] ≤ 999) ∧
     (getNum ['3'] = .ok (numVal ['3']) ∧ numVal ['3'] ≤ 999) ∧
     (getNum ['4'] = .ok (numVal ['4']) ∧ numVal ['4'] ≤ 999)) ∧
    (parseMask ("1.2.3.4".data) = .err ∨
      ∃ m, parseMask ("1.2.3.4".data) = .ok m) :=
  ⟨(c10_parse_mask_no_panic ("1.2.3.4".data)).1 ['1'] ['2'] ['3'] ['4']
    (by decide),
   (c10_parse_mask_no_panic ("1.2.3.4".data)).2⟩

/-- C8 counterexample: `parseHex` slices off the first two characters
without checking them, so the length-10 input `zzffffff00` — which does not
start with `0x` — succeeds as the `/24` netmask, contradicting the claim
that success requires the literal `0x` prefix. -/
theorem c8_hex_cex :
    parseHex ("zzffffff00".data) = .ok (cidrMask 24 32) ∧
    ("zzffffff00".data).take 2 = ['z', 'z'] := by decide

/-- C8 (amended): `parseHex` succeeds only on strings of total length
exactly 10 whose characters after the first two are 8 hex digits encoding a
valid mask pattern; the first two characters are sliced off unchecked (the
caller's dispatch guarantees the `0x` prefix); any other length — such as
`0xfff` — fails with the dedicated hex-length error, never clamped or
padded. -/
theorem c8_hex_amended :
    (∀ input mask, parseHex input = .ok mask →
      input.length = 10 ∧
      ∃ v, parseUint32Hex (input.drop 2) = some v ∧
        interpretMask v = some mask) ∧
    (∀ input : List Char, input.length ≠ 10 → parseHex input = .errLength) ∧
    parseHex ("0xfff".data) = .errLength ∧
    parseHex ("0xffffff00".data) = .ok (cidrMask 24 32) := by
  refine ⟨?_, ?_, by decide, by decide⟩
  · intro input mask h
    unfold parseHex at h
    by_cases hl : input.length ≠ 10
    · rw [if_pos hl] at h
      exact HexResult.noConfusion h
    · rw [if_neg hl] at h
      refine ⟨by omega, ?_⟩
      match hp : parseUint32Hex (input.drop 2) with
      | none =>
        simp only [hp] at h
        exact HexResult.noConfusion h
      | some v =>
        simp only [hp] at h
        match hi : interpretMask v with
        | some m =>
          simp only [hi, HexResult.ok.injEq] at h
          exact ⟨v, rfl, by rw [hi, h]⟩
        | none =>
          simp only [hi] at h
          exact HexResult.noConfusion h
  · intro input hl
    unfold parseHex
    rw [if_pos hl]

/-- Witness for C8 (amended) at the concrete input `0xffffff00`. -/
theorem c8_hex_amended_w :
    ("0xffffff00".data).length = 10 ∧
    ∃ v, parseUint32Hex (("0xffffff00".data).drop 2) = some v ∧
      interpretMask v = some (cidrMask 24 32) :=
  c8_hex_amended.1 ("0xffffff00".data) (cidrMask 24 32) (by decide)
